import Mathlib

/-
Verification development for the rapyd-sdk documentation-driven code
generator.  The extraction script (generate-references), the emitter
script (generate-types-from-references.js) and the HTTP client's
response accessor are shallowly embedded below.  JavaScript strings are
modelled as Lean `String`s (operated on through their `List Char` data);
the ad-hoc regular expressions of the scripts are embedded as explicit
character scanners with the exact back-tracking behaviour the concrete
patterns exhibit.  JSON parsing and the network/file-system boundary are
outside the model: documentation nodes arrive pre-parsed (the
`[block:parameters]` JSON payloads are carried as structured tables) and
the manual `reference-fixes.json` overlay (absent from the repository
sources) is modelled as empty.  A JavaScript exception is modelled by
`Option`: `none` means the run threw.
-/

/-- JS `\s` character class restricted to the ASCII whitespace the
documentation corpus contains. -/
def jsIsSpaceChar (c : Char) : Bool :=
  c = ' ' || c = '\t' || c = '\n' || c = '\r' || c = '\x0b' || c = '\x0c'

/-- JS `\w` character class: `[A-Za-z0-9_]`. -/
def jsIsWordChar (c : Char) : Bool :=
  c.isAlpha || c.isDigit || c = '_'

/-- Does the character list start with the given pattern? -/
def lstartsWith : List Char → List Char → Bool
  | _, [] => true
  | [], _ :: _ => false
  | a :: as, b :: bs => a = b && lstartsWith as bs

/-- Does the character list contain the given pattern (JS `includes`)? -/
def lcontainsSub : List Char → List Char → Bool
  | [], sub => lstartsWith [] sub
  | c :: t, sub => lstartsWith (c :: t) sub || lcontainsSub t sub

/-- JS `String.prototype.includes`. -/
def jsIncludes (s sub : String) : Bool := lcontainsSub s.data sub.data

/-- JS `String.prototype.startsWith`. -/
def jsStartsWith (s p : String) : Bool := lstartsWith s.data p.data

/-- JS `String.prototype.endsWith`. -/
def jsEndsWith (s p : String) : Bool := lstartsWith s.data.reverse p.data.reverse

/-- JS `String.prototype.toLowerCase` on the ASCII fragment. -/
def jsToLower (s : String) : String := String.mk (s.data.map Char.toLower)

/-- JS `String.prototype.toUpperCase` on the ASCII fragment. -/
def jsToUpper (s : String) : String := String.mk (s.data.map Char.toUpper)

/-- JS `String.prototype.trim`. -/
def ltrim (l : List Char) : List Char :=
  ((l.dropWhile jsIsSpaceChar).reverse.dropWhile jsIsSpaceChar).reverse

/-- Split on every character satisfying `p` (JS `split(/\s/g)`-style:
adjacent delimiters produce empty segments). -/
def splitChars (p : Char → Bool) : List Char → List (List Char)
  | [] => [[]]
  | c :: t =>
    match splitChars p t with
    | [] => [[]]
    | seg :: rest => if p c then [] :: seg :: rest else (c :: seg) :: rest

/-- Fuelled splitter on a fixed non-empty substring (JS `split(' or ')`).
The fuel is the length of the input, enough for the scan. -/
def splitSubAux (sub : List Char) : Nat → List Char → List (List Char)
  | _, [] => [[]]
  | 0, l => [l]
  | fuel + 1, c :: t =>
    if sub ≠ [] && lstartsWith (c :: t) sub then
      match splitSubAux sub fuel (t.drop (sub.length - 1)) with
      | r => [] :: r
    else
      match splitSubAux sub fuel t with
      | [] => [[]]
      | seg :: rest => (c :: seg) :: rest

/-- JS `String.prototype.split` with a substring separator. -/
def splitSub (s sub : String) : List String :=
  (splitSubAux sub.data s.data.length s.data).map String.mk

/-- Fuelled global replacement of one fixed substring by another
(JS `replace(/\\\*/g, '-')` and friends). -/
def replaceAllSubAux (pat repl : List Char) : Nat → List Char → List Char
  | _, [] => []
  | 0, l => l
  | fuel + 1, c :: t =>
    if pat ≠ [] && lstartsWith (c :: t) pat then
      repl ++ replaceAllSubAux pat repl fuel (t.drop (pat.length - 1))
    else
      c :: replaceAllSubAux pat repl fuel t

/-- JS `replace(/pat/g, repl)` for a fixed pattern. -/
def replaceAllSub (s pat repl : String) : String :=
  String.mk (replaceAllSubAux pat.data repl.data s.data.length s.data)

/-- Remove the first occurrence of a fixed substring
(JS `replace('.ts', '')` with a string argument replaces once). -/
def removeFirstSub (pat : List Char) : List Char → List Char
  | [] => []
  | c :: t =>
    if pat ≠ [] && lstartsWith (c :: t) pat then t.drop (pat.length - 1)
    else c :: removeFirstSub pat t

/-- The scanner for `title.replace(/(\s|Sfx$)/g, '')`: every whitespace
character is dropped, and the fixed suffix is dropped when the rest of
the string is exactly that suffix (the `$` anchor). -/
def stripWsAndSuffix (sfx : List Char) : List Char → List Char
  | [] => []
  | c :: t =>
    if jsIsSpaceChar c then stripWsAndSuffix sfx t
    else if c :: t = sfx then []
    else c :: stripWsAndSuffix sfx t

/-- The scanner for `replace(/(\s|\-)/g, '')`. -/
def stripWsAndHyphens (l : List Char) : List Char :=
  l.filter (fun c => !(jsIsSpaceChar c || c = '-'))

/-- `replace(/Request$/, '')`: drop one trailing `Request`. -/
def stripTrailingRequest (s : String) : String :=
  if jsEndsWith s "Request" then
    String.mk (s.data.take (s.data.length - 7))
  else s

/-- `replace(/s$/, '')`: drop one trailing `s`. -/
def stripTrailingS (s : String) : String :=
  if jsEndsWith s "s" then String.mk (s.data.take (s.data.length - 1)) else s

/-- JS `indexOf`: the index of the first occurrence of a character. -/
def lindexOf (c : Char) : List Char → Option Nat
  | [] => none
  | x :: t => if x = c then some 0 else (lindexOf c t).map (fun i => i + 1)

/-- `url.indexOf('?')` plus `substring`: everything up to the first `?`
(the whole string when there is none). -/
def truncatePath (l : List Char) : List Char :=
  match lindexOf '?' l with
  | none => l
  | some i => l.take i

/-- The scanner for `path.replace(/\:(\w+)/g, '{$1}')`: a colon followed
by a non-empty word run becomes a braced parameter. -/
def colonToBraceAux : Nat → List Char → List Char
  | _, [] => []
  | 0, l => l
  | fuel + 1, c :: t =>
    if c = ':' && t.takeWhile jsIsWordChar ≠ [] then
      let w := t.takeWhile jsIsWordChar
      '\x7b' :: w ++ '\x7d' :: colonToBraceAux fuel (t.drop w.length)
    else
      c :: colonToBraceAux fuel t

/-- `path.replace(/\:(\w+)/g, '{$1}')`. -/
def colonToBrace (l : List Char) : List Char := colonToBraceAux l.length l

/-
Type IR.  A JavaScript type node is an object `{ type, startsWith?,
possibleValues?, fields?, id?, arrayTypes? }`; `Typ.mk` carries exactly
those properties (`none` = property absent).  `Typ.group` models a plain
JavaScript array appearing where a node is expected: the emitter's
field-merge stores `[existingTypeList, newTypeList]`, and `formatType`'s
default case flattens such arrays.
-/

inductive Typ where
  | mk (tag : String) (sw : Option String) (pv : Option (List String))
       (flds : Option (List (String × List Typ))) (rid : Option String)
       (ats : Option (List Typ))
  | group (ts : List Typ)

/-- A bare `{ type: tag }` node. -/
def baseNode (tag : String) : Typ := .mk tag none none none none none

/-- An `{ type: 'array', arrayTypes: [inner] }` node. -/
def arrNode (inner : Typ) : Typ := .mk "array" none none none none (some [inner])

/-- `type.type === ofType` (a plain array has no `type` property). -/
def isTag (tag : String) : Typ → Bool
  | .mk t _ _ _ _ _ => t = tag
  | .group _ => false

/-- The `arrayTypes` of the first `array`-tagged node, when present
(`findType`'s descent step). -/
def firstArrayTypes (ts : List Typ) : Option (List Typ) :=
  match ts.find? (isTag "array") with
  | some (.mk _ _ _ _ _ (some l)) => some l
  | _ => none

mutual

/-- `findType` applied to the `arrayTypes` list of one `array` node:
an exact tag match there, or a deeper descent. -/
def findTypeDeep (tag : String) : Typ → Bool
  | .mk _ _ _ _ _ ats =>
    match ats with
    | some l => l.any (isTag tag) || findTypeList tag l
    | none => false
  | .group _ => false

/-- The descent step of `findType`: no exact match at this level, so look
inside the first `array`-tagged node of the list. -/
def findTypeList (tag : String) : List Typ → Bool
  | [] => false
  | t :: ts => if isTag "array" t then findTypeDeep tag t else findTypeList tag ts

end

/-- `findType(types, ofType)` succeeds: an exact tag match at this level,
or recursively inside the first `array` node's `arrayTypes` (`findType`
descends only into the first `array`-tagged node, and only when it has an
`arrayTypes` property). -/
def findTypeB (tag : String) (ts : List Typ) : Bool :=
  ts.any (isTag tag) || findTypeList tag ts

/-- Apply `f` to the first node with the given tag in the list. -/
def mapFirstTag (tag : String) (f : Typ → Typ) : List Typ → List Typ
  | [] => []
  | t :: ts => if isTag tag t then f t :: ts else t :: mapFirstTag tag f ts

mutual

/-- The enrichment applied inside one `array` node's `arrayTypes`, at the
position `findType` would locate. -/
def mapDeep (tag : String) (f : Typ → Typ) : Typ → Typ
  | .mk t sw pv flds rid ats =>
    .mk t sw pv flds rid
      (match ats with
       | some l => some (if l.any (isTag tag) then mapFirstTag tag f l else mapList tag f l)
       | none => none)
  | .group g => .group g

/-- The descent step of the in-place enrichment: rewrite inside the first
`array`-tagged node of the list. -/
def mapList (tag : String) (f : Typ → Typ) : List Typ → List Typ
  | [] => []
  | t :: ts => if isTag "array" t then mapDeep tag f t :: ts else t :: mapList tag f ts

end

/-- Apply `f` at the node `findType` would return: the in-place mutation
`stringType.x = v` / `objectType.x = v` of the extraction script, made
pure.  Only called when `findTypeB` holds. -/
def mapAtFind (tag : String) (f : Typ → Typ) (ts : List Typ) : List Typ :=
  if ts.any (isTag tag) then mapFirstTag tag f ts else mapList tag f ts

/-- The alias table `typeAliases` plus its application
`typeAliases[name] || name`. -/
def typeAlias (t : String) : String :=
  if t = "float" then "number"
  else if t = "Boolean" then "boolean"
  else if t = "int" then "number"
  else if t = "integer" then "number"
  else t

/-- `rawType.split(' ').pop()`: the last space-separated segment
(`split` always returns a non-empty array). -/
def lastSpaceSegment (s : String) : String :=
  String.mk ((splitChars (fun c => c = ' ') s.data).getLast?.getD [])

/-- Scanner for `/starting with \*\*(\w+)\*\*/`: the first position where
the literal `starting with **` is followed by a non-empty word run and a
closing `**` (the greedy `\w+` cannot backtrack into `*`). -/
def findStartingWith : List Char → Option String
  | [] => none
  | c :: t =>
    let here :=
      if lstartsWith (c :: t) "starting with **".data then
        let rest := (c :: t).drop "starting with **".data.length
        let w := rest.takeWhile jsIsWordChar
        if w ≠ [] && lstartsWith (rest.drop w.length) "**".data then
          some (String.mk w)
        else none
      else none
    match here with
    | some w => some w
    | none => findStartingWith t

/-- Word-or-whitespace class `(\w|\s)` of the bullet captures. -/
def jsIsWordOrSpace (c : Char) : Bool := jsIsWordChar c || jsIsSpaceChar c

/-- Scanner for `^(\\\*|\*|\-)\s*\*\*((\w|\s)+)\*\*` against one line of
the description: a bullet marker (`\*` literal, `*` or `-`), optional
whitespace, `**`, a non-empty word/space run, `**`; the capture is
trimmed.  Greedy runs cannot backtrack past `*`. -/
def bulletBoldValue (l : List Char) : Option String :=
  let afterBullet :=
    if lstartsWith l ['\\', '*'] then some (l.drop 2)
    else if lstartsWith l ['*'] then some (l.drop 1)
    else if lstartsWith l ['-'] then some (l.drop 1)
    else none
  match afterBullet with
  | none => none
  | some r =>
    let r1 := r.dropWhile jsIsSpaceChar
    if lstartsWith r1 "**".data then
      let r2 := r1.drop 2
      let w := r2.takeWhile jsIsWordOrSpace
      if w ≠ [] && lstartsWith (r2.drop w.length) "**".data then
        some (String.mk (ltrim w))
      else none
    else none

/-- Scanner for `^(\\\*|\*|\-)\s*\`((\w|\s)+)\`` against one line: same
bullet shape with backtick-quoted capture. -/
def bulletTickValue (l : List Char) : Option String :=
  let afterBullet :=
    if lstartsWith l ['\\', '*'] then some (l.drop 2)
    else if lstartsWith l ['*'] then some (l.drop 1)
    else if lstartsWith l ['-'] then some (l.drop 1)
    else none
  match afterBullet with
  | none => none
  | some r =>
    let r1 := r.dropWhile jsIsSpaceChar
    if lstartsWith r1 ['`'] then
      let r2 := r1.drop 1
      let w := r2.takeWhile jsIsWordOrSpace
      if w ≠ [] && lstartsWith (r2.drop w.length) ['`'] then
        some (String.mk (ltrim w))
      else none
    else none

/-- Scanner for `/see \[((\w|\s)+)\]\(ref\:((\w|-)+)\)/i`: the captured
slug of the first case-insensitive `see [Label](ref:slug)` phrase. -/
def findSeeRef : List Char → Option String
  | [] => none
  | c :: t =>
    let here :=
      let low := (c :: t).map Char.toLower
      if lstartsWith low "see [".data then
        let rest := (c :: t).drop "see [".data.length
        let lbl := rest.takeWhile jsIsWordOrSpace
        if lbl ≠ [] && lstartsWith ((rest.drop lbl.length).map Char.toLower) "](ref:".data then
          let rest2 := rest.drop (lbl.length + "](ref:".data.length)
          let slug := rest2.takeWhile (fun ch => jsIsWordChar ch || ch = '-')
          if slug ≠ [] && lstartsWith (rest2.drop slug.length) [')'] then
            some (String.mk slug)
          else none
        else none
      else none
    match here with
    | some w => some w
    | none => findSeeRef t

/-- Setters for the in-place enrichments of `getTypes`. -/
def setSw (p : String) : Typ → Typ
  | .mk tag _ pv flds rid ats => .mk tag (some p) pv flds rid ats
  | .group ts => .group ts

def setPv (vs : List String) : Typ → Typ
  | .mk tag sw _ flds rid ats => .mk tag sw (some vs) flds rid ats
  | .group ts => .group ts

def setFlds (fs : List (String × List Typ)) : Typ → Typ
  | .mk tag sw pv _ rid ats => .mk tag sw pv (some fs) rid ats
  | .group ts => .group ts

def setRid (i : String) : Typ → Typ
  | .mk tag sw pv flds _ ats => .mk tag sw pv flds (some i) ats
  | .group ts => .group ts

/-- The dispatch part of `getTypes`: raw type token to candidate nodes,
before the description-driven enrichments. -/
def getTypesRaw (rawType : String) : List Typ :=
  if jsIncludes rawType "array of" || jsIncludes rawType "list of" then
    [arrNode (baseNode (typeAlias (stripTrailingS (lastSpaceSegment rawType))))]
  else if jsIncludes rawType " or " then
    (splitSub rawType " or ").map (fun tn => baseNode (typeAlias tn))
  else if rawType = "array_string" then [arrNode (baseNode "string")]
  else if rawType = "array_object" then [arrNode (baseNode "object")]
  else [baseNode (typeAlias rawType)]

/-- `getTypes(rawType, description)`: dispatch on the raw token, then the
four optional description-driven enrichments, applied in source order to
the node `findType` locates. -/
def getTypes (rawType description : String) : List Typ :=
  let types := getTypesRaw rawType
  let hasStr := findTypeB "string" types
  let hasObj := findTypeB "object" types
  let types1 :=
    match findStartingWith description.data with
    | some p => if hasStr then mapAtFind "string" (setSw p) types else types
    | none => types
  let types2 :=
    if hasStr && (jsIncludes description "of the following" || jsIncludes description "ossible values") then
      let pvs := (splitChars (fun c => c = '\n') description.data).filterMap bulletBoldValue
      if pvs.isEmpty then types1 else mapAtFind "string" (setPv pvs) types1
    else types1
  let types3 :=
    if hasObj && jsIncludes description "the following fields" then
      let fs := (splitChars (fun c => c = '\n') description.data).filterMap
        (fun line => (bulletTickValue line).map (fun v => (v, [baseNode "unknown"])))
      if fs.isEmpty then types2 else mapAtFind "object" (setFlds fs) types2
    else types2
  match findSeeRef description.data with
  | some slug => if hasObj then mapAtFind "object" (setRid slug) types3 else types3
  | none => types3

/-
Extraction data model.  `Reference` is the record pushed onto the global
`references` array; kind-specific properties default to empty.  A
documentation node carries its raw strings, its `api` block (endpoints)
and its `[block:parameters]` JSON payloads pre-parsed as `TableData`
(the JSON.parse boundary of the model).  The `reference-fixes.json`
overlay required by the script is not part of the repository sources and
is modelled as the empty overlay.
-/

structure RField where
  name : String
  type : List Typ
  required : Bool
  description : String

structure EnumValue where
  name : String
  description : String

structure Reference where
  product : String
  parent : Option String := none
  id : String
  rtype : String
  name : String
  description : String := ""
  fields : List RField := []
  values : List EnumValue := []
  method : String := ""
  path : String := ""
  params : List RField := []
  body : List RField := []
  headers : List RField := []
  query : List RField := []

structure ApiParam where
  name : String
  ptype : String
  desc : String
  loc : String
  required : Bool

structure ApiInfo where
  method : String
  url : String
  params : List ApiParam

structure TableData where
  rows : Nat
  data : List (String × String)

inductive DocNode where
  | mk (title slug ntype body excerpt : String) (api : Option ApiInfo)
       (paramBlocks : List TableData) (children : List DocNode)

def DocNode.title : DocNode → String
  | .mk t _ _ _ _ _ _ _ => t

def DocNode.slug : DocNode → String
  | .mk _ s _ _ _ _ _ _ => s

def DocNode.ntype : DocNode → String
  | .mk _ _ ty _ _ _ _ _ => ty

def DocNode.api : DocNode → Option ApiInfo
  | .mk _ _ _ _ _ a _ _ => a

def DocNode.children : DocNode → List DocNode
  | .mk _ _ _ _ _ _ _ cs => cs

/-- `title.replace(/ - (Collect|Disburse|Wallet|Issuing)/g, '')`. -/
def productSuffixAlts : List (List Char) :=
  [" - Collect".data, " - Disburse".data, " - Wallet".data, " - Issuing".data]

def cleanTitleAux : Nat → List Char → List Char
  | _, [] => []
  | 0, l => l
  | fuel + 1, c :: t =>
    match productSuffixAlts.find? (fun alt => lstartsWith (c :: t) alt) with
    | some alt => cleanTitleAux fuel (t.drop (alt.length - 1))
    | none => c :: cleanTitleAux fuel t

def cleanProductSuffix (s : String) : String :=
  String.mk (cleanTitleAux s.data.length s.data)

/-- One match attempt for `/\*\*(\w+)\*\*\n(.*)\n/` at the head of the
list: bold word, newline, one description line, newline.  Returns the
captures and the length of the whole match. -/
def tryErrorAt (l : List Char) : Option (String × String × Nat) :=
  if lstartsWith l "**".data then
    let r := l.drop 2
    let w := r.takeWhile jsIsWordChar
    if w ≠ [] && lstartsWith (r.drop w.length) "**\n".data then
      let r2 := r.drop (w.length + 3)
      let d := r2.takeWhile (fun ch => ch ≠ '\n' && ch ≠ '\r')
      if lstartsWith (r2.drop d.length) ['\n'] then
        some (String.mk w, String.mk d, 2 + w.length + 3 + d.length + 1)
      else none
    else none
  else none

/-- `body.matchAll(/\*\*(\w+)\*\*\n(.*)\n/g)`: successive matches, the
scan resuming after each whole match. -/
def scanErrorsAux : Nat → List Char → List (String × String)
  | _, [] => []
  | 0, _ => []
  | fuel + 1, c :: t =>
    match tryErrorAt (c :: t) with
    | some (nm, d, len) => (nm, d) :: scanErrorsAux fuel ((c :: t).drop len)
    | none => scanErrorsAux fuel t

def scanErrors (body : String) : List (String × String) :=
  scanErrorsAux body.data.length body.data

/-- `addErrors`: the error-enum Reference for a `...Errors` node. -/
def addErrors (product parentSlug slug titleClean body : String) : Reference :=
  { product := product, parent := some parentSlug, id := slug, rtype := "enum",
    name := String.mk (stripWsAndSuffix "Errors".data titleClean.data) ++ "Error",
    values := (scanErrors body).map (fun nd => EnumValue.mk nd.1 nd.2) }

/-- `location.split('-', 2)`: the first two dash-separated segments. -/
def splitDashTwo (s : String) : String × Option String :=
  match splitChars (fun c => c = '-') s.data with
  | [] => ("", none)
  | [a] => (String.mk a, none)
  | a :: b :: _ => (String.mk a, some (String.mk b))

/-- JS numeric coercion `+row` restricted to canonical digit strings;
anything else behaves as the NaN case (the entry lands on a non-index
property and is invisible to array iteration). -/
def parseNatDigits (s : String) : Option Nat :=
  if s.data ≠ [] && s.data.all Char.isDigit then
    some (s.data.foldl (fun n c => n * 10 + (c.toNat - 48)) 0)
  else none

/-- A row object under construction: the `name`/`type`/`description`
cells seen so far (`typeTableColumns`). -/
def assignCol (col : String) (v : String)
    (pr : Option String × Option String × Option String) :
    Option String × Option String × Option String :=
  if col = "0" then (some v, pr.2.1, pr.2.2)
  else if col = "1" then (pr.1, some v, pr.2.2)
  else if col = "2" then (pr.1, pr.2.1, some v)
  else pr

def tableUpdate (ri : Nat) (col : Option String) (v : String) :
    List (Nat × (Option String × Option String × Option String)) →
    List (Nat × (Option String × Option String × Option String))
  | [] => [(ri, assignCol (col.getD "") v (none, none, none))]
  | (j, pr) :: rest =>
    if j = ri then (j, assignCol (col.getD "") v pr) :: rest
    else (j, pr) :: tableUpdate ri col v rest

/-- The first loop of `getTypeTable`: distribute the `data` cells into
row objects, skipping the header row. -/
def buildTable (entries : List (String × String)) :
    List (Nat × (Option String × Option String × Option String)) :=
  entries.foldl
    (fun acc e =>
      let rc := splitDashTwo e.1
      if rc.1 = "h" then acc
      else
        match parseNatDigits rc.1 with
        | some ri => tableUpdate ri rc.2 e.2 acc
        | none => acc)
    []

/-- The length of `new Array(rows)` after the index assignments: JS array
length grows to cover the largest assigned index. -/
def tableLength (rows : Nat)
    (tbl : List (Nat × (Option String × Option String × Option String))) : Nat :=
  tbl.foldl (fun m e => max m (e.1 + 1)) rows

/-- `Option`-valued `map` over a list: `none` as soon as one element
fails (the JS loop throws). -/
def optMap {α β : Type} (g : α → Option β) : List α → Option (List β)
  | [] => some []
  | a :: l =>
    match g a, optMap g l with
    | some b, some bs => some (b :: bs)
    | _, _ => none

/-- The second loop of `getTypeTable`: each row must exist (array holes
throw on `row.name`) and carry all three cells (a missing cell makes
`row.name.replace` / `getTypes` throw); backticks are stripped from the
name, the type cell is inferred against the description, and `required`
is set to `true` unconditionally. -/
def buildRow (tbl : List (Nat × (Option String × Option String × Option String)))
    (i : Nat) : Option RField :=
  match tbl.find? (fun e => e.1 = i) with
  | none => none
  | some e =>
    match e.2.1, e.2.2.1, e.2.2.2 with
    | some n, some t, some d =>
      some { name := String.mk (n.data.filter (fun c => c ≠ '`')),
             type := getTypes t d, required := true, description := d }
    | _, _, _ => none

def getTypeTable (rows : Nat) (entries : List (String × String)) : Option (List RField) :=
  let tbl := buildTable entries
  optMap (buildRow tbl) (List.range (tableLength rows tbl))

/-- `reference.title.replace(/(\s|Object$)/g, '')`. -/
def typeRefName (titleClean : String) : String :=
  String.mk (stripWsAndSuffix "Object".data titleClean.data)

/-- `addType`: one `type` Reference per node, from the first
`[block:parameters]` payload; a node without one contributes nothing. -/
def addType (product slug titleClean excerpt : String) (pbs : List TableData) :
    Option (List Reference) :=
  match pbs with
  | [] => some []
  | tb :: _ =>
    match getTypeTable tb.rows tb.data with
    | none => none
    | some fields =>
      some [{ product := product, id := slug, rtype := "type",
              name := typeRefName titleClean, description := excerpt,
              fields := fields }]

/-- Request-name derivation: split the title on whitespace, capitalise
each segment's first character (an empty segment throws), rejoin, strip
whitespace and hyphens. -/
def requestBaseName (title : String) : Option String :=
  let segs := splitChars jsIsSpaceChar title.data
  if segs.any List.isEmpty then none
  else
    some (String.mk (stripWsAndHyphens
      (List.intercalate [' '] (segs.map (fun seg =>
        match seg with
        | [] => []
        | c :: t => c.toUpper :: t)))))

/-- `getParamsIn`: the documented parameters declared at one location. -/
def getParamsIn (a : ApiInfo) (loc : String) : List RField :=
  (a.params.filter (fun p => p.loc = loc)).map (fun p =>
    { name := p.name, type := getTypes p.ptype p.desc,
      required := p.required, description := p.desc })

/-- The fixed transport-header exclusion list. -/
def excludeHeaders : List String :=
  ["access_key", "salt", "signature", "timestamp", "idempotency",
   "content-type", "content_type"]

/-- `addRequest`: the `request` Reference for an endpoint node (always
called with a parent).  The path keeps everything before the first `?`
and normalises `:name` parameters to braces; path parameters are forced
required; excluded headers are dropped case-insensitively. -/
def addRequest (product parentSlug slug titleClean excerpt : String)
    (api : Option ApiInfo) : Option Reference :=
  match api with
  | none => none
  | some a =>
    match requestBaseName titleClean with
    | none => none
    | some base =>
      some { product := product, parent := some parentSlug, id := slug,
             rtype := "request", name := base ++ "Request",
             description := excerpt,
             method := jsToUpper a.method,
             path := String.mk (colonToBrace (truncatePath a.url.data)),
             params := (getParamsIn a "path").map (fun f => { f with required := true }),
             body := getParamsIn a "body",
             headers := (getParamsIn a "header").filter
               (fun f => !(excludeHeaders.contains (jsToLower f.name))),
             query := getParamsIn a "query" }

mutual

/-- `handleReference`: dispatch one documentation node, returning the
References it pushes, in push order (`none` models a thrown exception). -/
def handleReference (product : String) (parent : Option String) :
    DocNode → Option (List Reference)
  | .mk title slug ntype body excerpt api pbs children =>
    let t := cleanProductSuffix title
    if ntype = "basic" then
      if jsIncludes t "Sequence" then some []
      else if jsEndsWith t "Object" then
        match addType product slug t excerpt pbs with
        | none => none
        | some typeRefs =>
          match handleChildren product slug children with
          | none => none
          | some childRefs => some (typeRefs ++ childRefs)
      else if jsEndsWith t "Errors" then
        match parent with
        | some ps => some [addErrors product ps slug t body]
        | none => some []
      else if jsStartsWith t "Webhook" then some []
      else some []
    else if ntype = "endpoint" then
      match parent with
      | some ps =>
        match addRequest product ps slug t excerpt api with
        | none => none
        | some r => some [r]
      | none => some []
    else some []

/-- The child recursion of the `...Object` branch: every child is handled
with the current node as parent. -/
def handleChildren (product parentSlug : String) :
    List DocNode → Option (List Reference)
  | [] => some []
  | c :: cs =>
    match handleReference product (some parentSlug) c with
    | none => none
    | some rs =>
      match handleChildren product parentSlug cs with
      | none => none
      | some rest => some (rs ++ rest)

end

/-- One fetch task of the extraction run: a product id together with the
documentation nodes one URL yields. -/
structure ExtractTask where
  product : String
  docs : List DocNode

/-- The synchronous loop a single fetch handler runs once its response
has arrived. -/
def runTask (t : ExtractTask) : Option (List Reference) :=
  go t.product t.docs
where
  go (product : String) : List DocNode → Option (List Reference)
    | [] => some []
    | d :: ds =>
      match handleReference product none d, go product ds with
      | some rs, some rest => some (rs ++ rest)
      | _, _ => none

/-- The whole extraction run.  The tasks are given in the order their
fetches complete: `Promise.all` handlers append to the shared
`references` array in completion order, which the scheduler does not
fix.  A failed task rejects the `Promise.all` and no artifact is
written (`none`). -/
def runAll : List ExtractTask → Option (List Reference)
  | [] => some []
  | t :: ts =>
    match runTask t, runAll ts with
    | some rs, some rest => some (rs ++ rest)
    | _, _ => none

mutual

/-- All slugs of a documentation subtree, root first. -/
def slugsNode : DocNode → List String
  | .mk _ s _ _ _ _ _ children => s :: slugsList children

def slugsList : List DocNode → List String
  | [] => []
  | c :: cs => slugsNode c ++ slugsList cs

end

def slugsTasks : List ExtractTask → List String
  | [] => []
  | t :: ts => slugsList t.docs ++ slugsTasks ts

mutual

/-- A size measure for the strong induction over documentation trees. -/
def nodeSize : DocNode → Nat
  | .mk _ _ _ _ _ _ _ children => 1 + childrenSize children

def childrenSize : List DocNode → Nat
  | [] => 0
  | c :: cs => 1 + nodeSize c + childrenSize cs

end

/-
Code emitter (generate-types-from-references.js).  All emission is pure
string building; the `references.json` input is the `List Reference`
produced by extraction.
-/

/-- `references.find(reference => reference.id === id)`. -/
def refFind (refs : List Reference) (i : String) : Option Reference :=
  refs.find? (fun r => r.id == i)

/-- `possibleValues.map(value => \`'${value}'\`).join(' | ')`. -/
def quoteJoin : List String → String
  | [] => ""
  | [v] => "'" ++ v ++ "'"
  | v :: vs => "'" ++ v ++ "'" ++ " | " ++ quoteJoin vs

mutual

/-- One arm of `formatType`'s `.map`: the switch on `type.type`.  A plain
array reaching the default case recurses (`Array.isArray`); any other
unrecognised tag renders `unknown`. -/
def formatTypeOne (refs : List Reference) : Typ → String
  | .group ts => formatTypeList refs ts
  | .mk tag sw pv flds rid ats =>
    if tag = "string" then
      match sw with
      | some p => "`" ++ p ++ "$\x7bstring\x7d`"
      | none =>
        match pv with
        | some vs => quoteJoin vs
        | none => "string"
    else if tag = "object" then
      match flds with
      | some fs => "\x7b " ++ formatFieldList refs fs ++ " \x7d"
      | none =>
        match rid with
        | some i =>
          match refFind refs i with
          | some ext => "Partial<" ++ ext.name ++ ">"
          | none => "object"
        | none => "object"
    else if tag = "number" || tag = "boolean" then tag
    else if tag = "array" then
      match ats with
      | some l => "(" ++ formatTypeList refs l ++ ")[]"
      | none => "any[]"
    else "unknown"

/-- `formatType(types)`: render each node and join with `|`. -/
def formatTypeList (refs : List Reference) : List Typ → String
  | [] => ""
  | [t] => formatTypeOne refs t
  | t :: ts => formatTypeOne refs t ++ " | " ++ formatTypeList refs ts

/-- The inline-fields rendering `name: type; ...` of the `object` case. -/
def formatFieldList (refs : List Reference) : List (String × List Typ) → String
  | [] => ""
  | [nt] => nt.1 ++ ": " ++ formatTypeList refs nt.2
  | nt :: rest => nt.1 ++ ": " ++ formatTypeList refs nt.2 ++ "; " ++ formatFieldList refs rest

end

/-- `getDescription`: the doc-comment block, with `\*` bullets rewritten
to `-` and each description line continued with ` * `. -/
def getDescription (description : String) : String :=
  "  /**\n   * " ++
  String.intercalate "\n   * "
    ((splitChars (fun c => c = '\n') (replaceAllSub description "\\*" "-").data).map String.mk) ++
  "\n   */\n"

mutual

/-- `getExternalIds`' visitor `next`: a node's own `id`, then the ids
inside an `array` node's `arrayTypes` (plain arrays have neither). -/
def getExternalIdsOne : Typ → List String
  | .group _ => []
  | .mk tag _ _ _ rid ats =>
    (match rid with
     | some i => [i]
     | none => []) ++
    (if tag = "array" then
      match ats with
      | some l => getExternalIds l
      | none => []
    else [])

/-- `getExternalIds(types)`. -/
def getExternalIds : List Typ → List String
  | [] => []
  | t :: ts => getExternalIdsOne t ++ getExternalIds ts

end

/-- The directory of `getReferencePath(reference)` relative to the shared
`generatedRoot`: `<product>/<type + 's'>`. -/
def refDirSegs (r : Reference) : List String := [r.product, r.rtype ++ "s"]

def dropCommonSegs : List String → List String → List String × List String
  | a :: as, b :: bs => if a = b then dropCommonSegs as bs else (a :: as, b :: bs)
  | as, bs => (as, bs)

/-- `path.relative(dirname(self), external).replace('.ts', '')`, prefixed
with `./` when it does not already start with a dot. -/
def relImportPath (self ext : Reference) : String :=
  let rests := dropCommonSegs (refDirSegs self) (refDirSegs ext)
  let p := String.intercalate "/"
    (rests.1.map (fun _ => "..") ++ rests.2 ++ [ext.name ++ ".ts"])
  let p := String.mk (removeFirstSub ".ts".data p.data)
  if jsStartsWith p "." then p else "./" ++ p

/-- One entry of the imports accumulation: `undefined` when the external
id resolves to no Reference. -/
def importEntry (refs : List Reference) (self : Reference) (i : String) : Option String :=
  match refFind refs i with
  | none => none
  | some ext =>
    some ("import \x7b " ++ ext.name ++ " \x7d from '" ++ relImportPath self ext ++ "';")

/-- The imports loop of `formatInterface` over the raw (pre-merge)
fields. -/
def interfaceImports (refs : List Reference) (self : Reference) :
    List RField → List (Option String)
  | [] => []
  | f :: fs => (getExternalIds f.type).map (importEntry refs self) ++ interfaceImports refs self fs

/-- `.filter((x, i, arr) => arr.indexOf(x) === i)`: keep first
occurrences. -/
def keepFirstsAux (seen : List String) : List String → List String
  | [] => []
  | s :: rest =>
    if seen.contains s then keepFirstsAux seen rest
    else s :: keepFirstsAux (s :: seen) rest

def keepFirsts (l : List String) : List String := keepFirstsAux [] l

/-- The rendered import block: `if (imports.length)` tests the raw array
(`undefined` entries included), then joins the defined, deduplicated
lines. -/
def importsBlock (imps : List (Option String)) : String :=
  if imps.isEmpty then ""
  else String.intercalate "\n" (keepFirsts (imps.filterMap id)) ++ "\n\n"

/-- The collision merge of `uniqueFields`: concatenated descriptions, the
pair of the two type lists (a two-element array of arrays), conjoined
`required`. -/
def mergeField (existing f : RField) : RField :=
  { name := f.name,
    description := existing.description ++ "\n" ++ f.description,
    type := [Typ.group existing.type, Typ.group f.type],
    required := existing.required && f.required }

/-- One step of the `uniqueFields` accumulation: merge onto the existing
entry (keeping its position) or append. -/
def dedupInsert : List RField → RField → List RField
  | [], f => [f]
  | g :: gs, f =>
    if g.name = f.name then mergeField g f :: gs
    else g :: dedupInsert gs f

/-- `Object.values(uniqueFields)` in insertion order. -/
def dedupFields (fs : List RField) : List RField := fs.foldl dedupInsert []

mutual

/-- Flatten the nested arrays `Typ.group` introduces, recovering the
candidate type alternatives a field carries. -/
def flattenOne : Typ → List Typ
  | .group ts => flattenList ts
  | .mk tag sw pv flds rid ats => [.mk tag sw pv flds rid ats]

def flattenList : List Typ → List Typ
  | [] => []
  | t :: ts => flattenOne t ++ flattenList ts

end

/-- The candidate type alternatives of a field's type list. -/
def flattenAlts (ts : List Typ) : List Typ := flattenList ts

/-- One property line of an interface: doc comment when the description
is truthy, `?` marker when not required. -/
def renderField (refs : List Reference) (f : RField) : String :=
  (if f.description ≠ "" then getDescription f.description else "") ++
  "  " ++ f.name ++ (if f.required then "" else "?") ++ ": " ++
  formatTypeList refs f.type ++ ";\n"

def renderFields (refs : List Reference) : List RField → String
  | [] => ""
  | f :: fs => renderField refs f ++ renderFields refs fs

/-- `formatInterface(reference, isExport)`. -/
def formatInterface (refs : List Reference) (self : Reference) (isExport : Bool) : String :=
  importsBlock (interfaceImports refs self self.fields) ++
  (if isExport then "export " else "") ++
  "interface " ++ self.name ++ " \x7b\n" ++
  renderFields refs (dedupFields self.fields) ++
  "\x7d;\n"

/-- One member line of `formatEnum`. -/
def renderEnumValue (v : EnumValue) : String :=
  (if v.description ≠ "" then getDescription v.description else "") ++
  "  " ++ v.name ++ " = '" ++ v.name ++ "',\n"

def renderEnumValues : List EnumValue → String
  | [] => ""
  | v :: vs => renderEnumValue v ++ renderEnumValues vs

/-- `formatEnum(reference, isExport)`. -/
def formatEnum (self : Reference) (isExport : Bool) : String :=
  (if isExport then "export " else "") ++
  "enum " ++ self.name ++ " \x7b\n" ++
  renderEnumValues self.values ++
  "\x7d;\n"

/-- The synthetic object `generateRequest` passes to `formatInterface`:
params, body, query and headers concatenated.  It carries no `type`
property, so `getReferencePath` would see the directory
`undefined + 's'`. -/
def requestShape (r : Reference) : Reference :=
  { product := r.product, parent := r.parent, id := "", rtype := "undefined",
    name := r.name,
    fields := r.params ++ r.body ++ r.query ++ r.headers }

/-- The scan `request.path.replace(/\{(\w+)\}/g, ...)`: braced word
parameters are collected in order and replaced by empty braces. -/
def pathParamsScanAux : Nat → List Char → List Char × List String
  | _, [] => ([], [])
  | 0, l => (l, [])
  | fuel + 1, c :: t =>
    if c = '\x7b' && (t.takeWhile jsIsWordChar ≠ [] &&
        lstartsWith (t.drop (t.takeWhile jsIsWordChar).length) ['\x7d']) then
      let w := t.takeWhile jsIsWordChar
      let r := pathParamsScanAux fuel (t.drop (w.length + 1))
      ('\x7b' :: '\x7d' :: r.1, String.mk w :: r.2)
    else
      let r := pathParamsScanAux fuel t
      (c :: r.1, r.2)

def pathParamsScan (s : String) : String × List String :=
  let r := pathParamsScanAux s.data.length s.data
  (String.mk r.1, r.2)

/-- The `queryParams` builder lines of an emitted API function. -/
def queryBlock (qs : List RField) : String :=
  if qs.isEmpty then ""
  else
    let hasMany := decide (1 < qs.length)
    "  const queryParams = client.queryParams(\x7b" ++
    String.join (qs.map (fun q =>
      if hasMany then "\n    " ++ q.name ++ ": request." ++ q.name ++ ","
      else " " ++ q.name ++ ": request." ++ q.name ++ " ")) ++
    (if hasMany then "\n  " else "") ++
    "\x7d);\n"

/-- The JSON body argument of an emitted API function. -/
def bodyBlock (bs : List RField) : String :=
  if bs.isEmpty then ""
  else
    ", \x7b\n" ++
    String.join (bs.map (fun p => "    " ++ p.name ++ ": request." ++ p.name ++ ",\n")) ++
    "  \x7d"

/-- One emitted API function: name derived from the request name with the
`Request` suffix stripped and the first letter lower-cased (an empty
remainder throws), path placeholders substituted positionally, the
typed-data accessor instantiated with the error enum or `Error`. -/
def apiFunction (ty : Reference) (error : Option Reference) (r : Reference) : Option String :=
  match (stripTrailingRequest r.name).data with
  | [] => none
  | c :: t =>
    let fn := String.mk (c.toLower :: t)
    let pp := pathParamsScan r.path
    some (
      "export async function " ++ fn ++ "<R = " ++ ty.name ++
      ">(client: RapydClient, request: " ++ r.name ++ "): Promise<R> \x7b\n" ++
      queryBlock r.query ++
      "  const response = await client." ++ jsToLower r.method ++ "('" ++ pp.1 ++ "'" ++
      (if r.query.isEmpty then "" else " + queryParams") ++
      (if pp.2.isEmpty then ""
       else ", " ++ String.intercalate ", " (pp.2.map (fun p => "request." ++ p))) ++
      bodyBlock r.body ++
      ");\n" ++
      "  return await response.data<R, " ++
      (match error with
       | some e => e.name
       | none => "Error") ++ ">();\n" ++
      "\x7d\n\n")

/-- `generateAPI(type, requests, error)`: the whole API module text. -/
def generateAPI (ty : Reference) (requests : List Reference) (error : Option Reference) :
    Option String :=
  let header :=
    "import \x7b RapydClient \x7d from '../../../core/RapydClient';\n" ++
    "import \x7b " ++ ty.name ++ " \x7d from '../types/" ++ ty.name ++ "';\n" ++
    (match error with
     | some e => "import \x7b " ++ e.name ++ " \x7d from '../enums/" ++ e.name ++ "';\n"
     | none => "") ++
    String.join (requests.map (fun r =>
      "import \x7b " ++ r.name ++ " \x7d from '../requests/" ++ r.name ++ "';\n")) ++
    "\n"
  match optMap (apiFunction ty error) requests with
  | none => none
  | some bodies => some (header ++ String.join bodies)

/-- The emission dispatch for a `type` Reference: its children. -/
def apiChildren (refs : List Reference) (ty : Reference) : List Reference :=
  refs.filter (fun r => r.parent == some ty.id)

def apiMethods (children : List Reference) : List Reference :=
  children.filter (fun r => r.rtype == "request")

def apiError (children : List Reference) : Option Reference :=
  children.find? (fun r => r.rtype == "enum")

/-
The client's response accessor (RapydClient.createResponse).  The JSON
payload arrives parsed; transport and the content-type check on `json()`
are at the excluded collaborator boundary.
-/

/-- The `status` envelope of a parsed Rapyd response payload. -/
structure RStatus where
  status : String
  message : String
  error_code : String
  operation_id : String

/-- A parsed response payload. -/
structure Payload (α : Type) where
  status : RStatus
  data : α

/-- `RapydError`: message, error code and operation id (the generic code
parameter of the TypeScript class is a phantom cast of the JSON value).
-/
structure RapydError where
  message : String
  code : String
  operationId : String

/-- `error<E>()`: a `RapydError` exactly when the payload's status is
`'ERROR'`. -/
def respError {α : Type} (p : Payload α) : Option RapydError :=
  if p.status.status = "ERROR" then
    some { message := p.status.message, code := p.status.error_code,
           operationId := p.status.operation_id }
  else none

/-- `data<R, E>()`: throw the error when present, otherwise return the
payload's `data` property. -/
def respData {α : Type} (p : Payload α) : Except RapydError α :=
  match respError p with
  | some e => Except.error e
  | none => Except.ok p.data

/-
Concrete claim inputs.
-/

/-- The `Customer Object` documentation node of the end-to-end scenario:
one field row and one child endpoint. -/
def c1endpointDoc : DocNode :=
  .mk "Get Customer" "get-customer" "endpoint" "" ""
    (some { method := "get", url := "/customers/:id",
            params := [{ name := "id", ptype := "string",
                         desc := "ID of the customer.", loc := "path", required := false }] })
    [] []

def c1doc : DocNode :=
  .mk "Customer Object" "customer" "basic" "" "" none
    [{ rows := 1, data := [("0-0", "id"), ("0-1", "string"), ("0-2", "starting with **cus_**")] }]
    [c1endpointDoc]

/-- The `type` Reference the scenario extracts. -/
def c1typeRef : Reference :=
  { product := "core", id := "customer", rtype := "type", name := "Customer",
    description := "",
    fields := [{ name := "id", type := [Typ.mk "string" (some "cus_") none none none none],
                 required := true, description := "starting with **cus_**" }] }

/-- The `request` Reference the scenario extracts. -/
def c1reqRef : Reference :=
  { product := "core", parent := some "customer", id := "get-customer",
    rtype := "request", name := "GetCustomerRequest", description := "",
    method := "GET", path := "/customers/\x7bid\x7d",
    params := [{ name := "id", type := [Typ.mk "string" none none none none none],
                 required := true, description := "ID of the customer." }] }

/-- A documented endpoint whose url carries a `:id` path parameter and a
query string. -/
def c5api : ApiInfo :=
  { method := "get", url := "/customer/:id/payment?expand=1",
    params := [{ name := "id", ptype := "string", desc := "", loc := "path",
                 required := false }] }

def c5node : DocNode := .mk "Get Payment" "cust-payment" "endpoint" "" "" (some c5api) [] []

def c5req : Reference :=
  { product := "p", parent := some "par", id := "cust-payment",
    rtype := "request", name := "GetPaymentRequest", description := "",
    method := "GET", path := "/customer/\x7bid\x7d/payment",
    params := [{ name := "id", type := [Typ.mk "string" none none none none none],
                 required := true, description := "" }] }

/-- A documented endpoint declaring the headers `access_key` and
`X-Custom`. -/
def c6api : ApiInfo :=
  { method := "get", url := "/things",
    params := [{ name := "access_key", ptype := "string", desc := "", loc := "header",
                 required := true },
               { name := "X-Custom", ptype := "string", desc := "", loc := "header",
                 required := true }] }

def c6req : Reference :=
  { product := "p", parent := some "par", id := "sl",
    rtype := "request", name := "GetThingRequest", description := "",
    method := "GET", path := "/things",
    headers := [{ name := "X-Custom", type := [Typ.mk "string" none none none none none],
                  required := true, description := "" }] }

/-- A `type` Reference with one field holding an external object
reference. -/
def c8shape (i : String) : Reference :=
  { product := "p", id := "thing", rtype := "type", name := "Thing",
    fields := [{ name := "a", type := [Typ.mk "object" none none none (some i) none],
                 required := true, description := "" }] }

/-- A one-row parameters-block table. -/
def c10entries : List (String × String) :=
  [("0-0", "id"), ("0-1", "string"), ("0-2", "d")]

def c10field : RField :=
  { name := "id", type := [Typ.mk "string" none none none none none],
    required := true, description := "d" }

/-- Two fetch tasks, each yielding one object node with an empty
parameters-block table. -/
def c3taskA : ExtractTask :=
  { product := "p",
    docs := [.mk "A Object" "a" "basic" "" "" none [{ rows := 0, data := [] }] []] }

def c3taskB : ExtractTask :=
  { product := "p",
    docs := [.mk "B Object" "b" "basic" "" "" none [{ rows := 0, data := [] }] []] }

/-- The References the two tasks extract. -/
def c3refA : Reference :=
  { product := "p", id := "a", rtype := "type", name := "A", description := "", fields := [] }

def c3refB : Reference :=
  { product := "p", id := "b", rtype := "type", name := "B", description := "", fields := [] }

/-- One fetch task containing two object nodes that share the slug
`customer`. -/
def c4task : ExtractTask :=
  { product := "p",
    docs := [.mk "Customer Object" "customer" "basic" "" "" none [{ rows := 0, data := [] }] [],
             .mk "Customer Again Object" "customer" "basic" "" "" none [{ rows := 0, data := [] }] []] }

/-- The two References `c4task` extracts, sharing the id `customer`. -/
def c4ref1 : Reference :=
  { product := "p", id := "customer", rtype := "type", name := "Customer",
    description := "", fields := [] }

def c4ref2 : Reference :=
  { product := "p", id := "customer", rtype := "type", name := "CustomerAgain",
    description := "", fields := [] }

/-
Theorems.
-/

set_option maxRecDepth 4000 in
/-- C1: for a documentation input consisting of one basic node titled
"Customer Object" whose parameters-block table has the single row
name=id, type=string, description="starting with **cus_**", and one
child endpoint node with method GET and url /customers/:id, the pipeline
produces a type declaration for Customer whose field renders as
id: `cus_${string}`;, a request declaration GetCustomerRequest in which
the id field is required (no '?' marker), and an API function
getCustomer that substitutes request.id into the templated path
(client.get('/customers/{}', request.id)) and returns
response.data<R, Error>(). -/
theorem pipeline_end_to_end_scenario :
    handleReference "core" none c1doc = some [c1typeRef, c1reqRef] ∧
    formatInterface [c1typeRef, c1reqRef] c1typeRef true =
      "export interface Customer \x7b\n  /**\n   * starting with **cus_**\n   */\n  id: `cus_$\x7bstring\x7d`;\n\x7d;\n" ∧
    c1reqRef.params.map (fun f => (f.name, f.required)) = [("id", true)] ∧
    formatInterface [c1typeRef, c1reqRef] (requestShape c1reqRef) true =
      "export interface GetCustomerRequest \x7b\n  /**\n   * ID of the customer.\n   */\n  id: string;\n\x7d;\n" ∧
    apiChildren [c1typeRef, c1reqRef] c1typeRef = [c1reqRef] ∧
    apiMethods [c1reqRef] = [c1reqRef] ∧
    apiError [c1reqRef] = none ∧
    generateAPI c1typeRef [c1reqRef] none = some
      ("import \x7b RapydClient \x7d from '../../../core/RapydClient';\nimport \x7b Customer \x7d from '../types/Customer';\nimport \x7b GetCustomerRequest \x7d from '../requests/GetCustomerRequest';\n\nexport async function getCustomer<R = Customer>(client: RapydClient, request: GetCustomerRequest): Promise<R> \x7b\n  const response = await client.get('/customers/\x7b\x7d', request.id);\n  return await response.data<R, Error>();\n\x7d\n\n") :=
  ⟨rfl, rfl, rfl, rfl, rfl, rfl, rfl, rfl⟩

/-- C7: for raw type "string" and description
"One of the following:\n- **active**\n- **closed**", type inference
returns a single string node carrying possibleValues equal to
["active","closed"], in that order. -/
theorem literal_union_extraction :
    getTypes "string" "One of the following:\n- **active**\n- **closed**" =
      [Typ.mk "string" none (some ["active", "closed"]) none none none] :=
  rfl

/-- C9: for every parsed response payload, the data accessor throws a
RapydError carrying the payload's message, error-code value and
operation id when the status field is 'ERROR', and otherwise returns the
payload's data field. -/
theorem client_data_accessor {α : Type} (p : Payload α) :
    (p.status.status = "ERROR" →
      respData p = Except.error
        { message := p.status.message, code := p.status.error_code,
          operationId := p.status.operation_id }) ∧
    (p.status.status ≠ "ERROR" → respData p = Except.ok p.data) := by
  constructor
  · intro h
    simp [respData, respError, h]
  · intro h
    simp [respData, respError, h]

/-- Witness for C9 at two concrete payloads: an error payload throws the
carried RapydError, a success payload returns its data. -/
theorem client_data_accessor_witness :
    respData (Payload.mk (RStatus.mk "ERROR" "Bad request" "ERR_X" "op1") "ignored") =
      Except.error (RapydError.mk "Bad request" "ERR_X" "op1") ∧
    respData (Payload.mk (RStatus.mk "SUCCESS" "" "" "op2") (42 : Nat)) =
      Except.ok 42 :=
  ⟨(client_data_accessor _).1 rfl, (client_data_accessor _).2 (by decide)⟩

/-- The `?`-truncation of the request path keeps exactly the longest
prefix free of `?`. -/
theorem truncatePath_eq_takeWhile : ∀ l, truncatePath l = l.takeWhile (fun c => c ≠ '?')
  | [] => rfl
  | c :: t => by
    have ih := truncatePath_eq_takeWhile t
    by_cases hc : c = '?'
    · subst hc
      simp [truncatePath, lindexOf, List.takeWhile_cons]
    · have h1 : lindexOf '?' (c :: t) = (lindexOf '?' t).map (fun i => i + 1) := by
        simp [lindexOf, hc]
      cases hft : lindexOf '?' t with
      | none =>
        have h2 : truncatePath t = t := by simp [truncatePath, hft]
        rw [h2] at ih
        simp only [ne_eq, decide_not] at ih
        simp [truncatePath, h1, hft, List.takeWhile_cons, hc, ← ih]
      | some i =>
        have h2 : truncatePath t = t.take i := by simp [truncatePath, hft]
        rw [h2] at ih
        simp only [ne_eq, decide_not] at ih
        simp [truncatePath, h1, hft, List.takeWhile_cons, hc, ← ih]

/-- C2: for every emitted shape, whenever two fields share the same
name, they are merged into a single field whose description is the two
descriptions concatenated with a newline, whose candidate type list is
the union of both original type lists, and whose required flag is the
logical AND of both flags; merging a required occurrence with a
not-required one yields required === false. -/
theorem field_dedup_merge (pre post : List RField) (g f : RField)
    (hname : g.name = f.name) (hpre : ∀ h ∈ pre, h.name ≠ f.name) :
    dedupInsert (pre ++ g :: post) f = pre ++ mergeField g f :: post ∧
    dedupFields [g, f] = [mergeField g f] ∧
    (mergeField g f).description = g.description ++ "\n" ++ f.description ∧
    flattenAlts (mergeField g f).type = flattenAlts g.type ++ flattenAlts f.type ∧
    (mergeField g f).required = (g.required && f.required) := by
  refine ⟨?_, ?_, rfl, ?_, rfl⟩
  · induction pre with
    | nil => simp [dedupInsert, hname]
    | cons h t ih =>
      have hh : h.name ≠ f.name := hpre h (by simp)
      simp only [List.cons_append, dedupInsert, if_neg hh, List.cons.injEq, true_and]
      exact ih (fun x hx => hpre x (by simp [hx]))
  · simp [dedupFields, dedupInsert, hname]
  · simp [mergeField, flattenAlts, flattenList, flattenOne]

/-- Witness for C2: merging one required and one not-required `status`
field concatenates the descriptions, pairs the type lists and clears the
required flag. -/
theorem field_dedup_merge_witness :
    dedupFields
      [RField.mk "status" [baseNode "string"] true "First doc.",
       RField.mk "status" [baseNode "number"] false "Second doc."] =
      [RField.mk "status" [Typ.group [baseNode "string"], Typ.group [baseNode "number"]] false
        "First doc.\nSecond doc."] ∧
    (mergeField (RField.mk "status" [baseNode "string"] true "First doc.")
      (RField.mk "status" [baseNode "number"] false "Second doc.")).required = false := by
  have H := field_dedup_merge [] []
    (RField.mk "status" [baseNode "string"] true "First doc.")
    (RField.mk "status" [baseNode "number"] false "Second doc.")
    rfl (by intro x hx; cases hx)
  exact ⟨H.2.1, H.2.2.2.2⟩

/-- C6: for every extracted request, exactly those documented header
parameters whose name, compared case-insensitively, is in the fixed
exclusion set {access_key, salt, signature, timestamp, idempotency,
content-type, content_type} are dropped from the headers fields, and all
other headers are retained. -/
theorem header_exclusion (product psl slug title excerpt : String) (a : ApiInfo)
    (r : Reference)
    (h : addRequest product psl slug title excerpt (some a) = some r) :
    r.headers = (getParamsIn a "header").filter
      (fun f => !(excludeHeaders.contains (jsToLower f.name))) ∧
    ∀ f, f ∈ r.headers ↔
      (f ∈ getParamsIn a "header" ∧ excludeHeaders.contains (jsToLower f.name) = false) := by
  simp only [addRequest] at h
  cases hb : requestBaseName title with
  | none => rw [hb] at h; cases h
  | some base =>
    rw [hb] at h
    have hr := Option.some.inj h
    subst hr
    refine ⟨rfl, ?_⟩
    intro f
    simp [List.mem_filter]

/-- Witness for C6: a request documenting the headers `access_key` and
`X-Custom` keeps exactly `X-Custom`. -/
theorem header_exclusion_witness :
    c6req.headers.map RField.name = ["X-Custom"] := by
  have h := (header_exclusion "p" "par" "sl" "Get Thing" "" c6api c6req rfl).1
  rw [h]
  rfl

/-- C5: for every endpoint node with a parent, the extracted request's
path equals the documented url truncated at its first '?', with every
colon-style path parameter :name rewritten to brace-style {name}; and
every parameter declared in location 'path' appears in the request's
params with required forced to true regardless of its declared flag. -/
theorem request_path_extraction (product psl : String) (node : DocNode)
    (refs : List Reference)
    (hty : node.ntype = "endpoint")
    (h : handleReference product (some psl) node = some refs) :
    ∀ r ∈ refs, ∃ a, node.api = some a ∧
      r.path = String.mk (colonToBrace (truncatePath a.url.data)) ∧
      truncatePath a.url.data = a.url.data.takeWhile (fun c => c ≠ '?') ∧
      r.params = (getParamsIn a "path").map (fun f => { f with required := true }) ∧
      ∀ f ∈ r.params, f.required = true := by
  obtain ⟨title, slug, ntype, body, excerpt, api, pbs, children⟩ := node
  simp only [DocNode.ntype] at hty
  subst hty
  simp only [handleReference] at h
  rw [if_neg (by decide)] at h
  rw [if_pos trivial] at h
  cases har : addRequest product psl slug (cleanProductSuffix title) excerpt api with
  | none => rw [har] at h; cases h
  | some r0 =>
    rw [har] at h
    have hrefs := Option.some.inj h
    subst hrefs
    intro r hr
    rw [List.mem_singleton] at hr
    subst hr
    simp only [addRequest] at har
    cases api with
    | none => cases har
    | some a =>
      cases hbn : requestBaseName (cleanProductSuffix title) with
      | none => rw [hbn] at har; cases har
      | some base =>
        rw [hbn] at har
        have hv := Option.some.inj har
        subst hv
        refine ⟨a, rfl, rfl, truncatePath_eq_takeWhile _, rfl, ?_⟩
        intro f hf
        rw [List.mem_map] at hf
        obtain ⟨x, _, rfl⟩ := hf
        rfl

/-- Witness for C5: the endpoint `/customer/:id/payment?expand=1` with a
path parameter `id` documented as not required yields the path
`/customer/{id}/payment` and a required `id` parameter. -/
theorem request_path_extraction_witness :
    c5req.path = "/customer/\x7bid\x7d/payment" ∧
    c5req.params.map RField.required = [true] := by
  have H := request_path_extraction "p" "par" c5node [c5req] rfl rfl
  obtain ⟨a, ha, hpath, -, hparams, -⟩ := H c5req (List.mem_singleton_self _)
  have ha' : some c5api = some a := ha
  obtain rfl := (Option.some.inj ha').symm
  constructor
  · rw [hpath]; rfl
  · rw [hparams]; rfl

/-- C8: for every object Type IR node whose id matches no Reference in
the graph, emission does not throw; the type renders as the bare
'object' fallback and the corresponding import is omitted, so the file
is still generated. -/
theorem dangling_reference_resilience (refs : List Reference) (i : String)
    (h : refFind refs i = none) :
    formatTypeList refs [Typ.mk "object" none none none (some i) none] = "object" ∧
    interfaceImports refs (c8shape i) (c8shape i).fields = [none] ∧
    formatInterface refs (c8shape i) true =
      "\n\nexport interface Thing \x7b\n  a: object;\n\x7d;\n" := by
  refine ⟨?_, ?_, ?_⟩
  · simp [formatTypeList, formatTypeOne, h]
  · simp [c8shape, interfaceImports, getExternalIds, getExternalIdsOne, importEntry, h]
  · simp [formatInterface, c8shape, interfaceImports, getExternalIds, getExternalIdsOne,
      importEntry, h, importsBlock, keepFirsts, keepFirstsAux, dedupFields, dedupInsert,
      renderFields, renderField, formatTypeList, formatTypeOne]
    rfl

/-- Witness for C8: the dangling id `missing` in an otherwise empty
graph renders as `object` with no import emitted. -/
theorem dangling_reference_resilience_witness :
    formatTypeList [] [Typ.mk "object" none none none (some "missing") none] = "object" ∧
    interfaceImports [] (c8shape "missing") (c8shape "missing").fields = [none] ∧
    formatInterface [] (c8shape "missing") true =
      "\n\nexport interface Thing \x7b\n  a: object;\n\x7d;\n" :=
  dangling_reference_resilience [] "missing" rfl

/-- Every element produced by `optMap` comes from some input element. -/
theorem optMap_mem {α β : Type} (g : α → Option β) :
    ∀ (l : List α) (res : List β), optMap g l = some res →
      ∀ b ∈ res, ∃ a ∈ l, g a = some b := by
  intro l
  induction l with
  | nil =>
    intro res h b hb
    simp only [optMap, Option.some.injEq] at h
    subst h
    cases hb
  | cons a t ih =>
    intro res h b hb
    simp only [optMap] at h
    cases hga : g a with
    | none => rw [hga] at h; cases h
    | some b0 =>
      rw [hga] at h
      cases hot : optMap g t with
      | none => rw [hot] at h; cases h
      | some bs =>
        rw [hot] at h
        have hres := Option.some.inj h
        subst hres
        rcases List.mem_cons.1 hb with rfl | hb'
        · exact ⟨a, by simp, hga⟩
        · obtain ⟨a', ha', hg'⟩ := ih bs hot b hb'
          exact ⟨a', by simp [ha'], hg'⟩

/-- Every field a parameters-block row yields is marked required. -/
theorem buildRow_required
    (tbl : List (Nat × (Option String × Option String × Option String)))
    (i : Nat) (f : RField) (h : buildRow tbl i = some f) : f.required = true := by
  simp only [buildRow] at h
  cases hf : tbl.find? (fun e => e.1 = i) with
  | none => rw [hf] at h; cases h
  | some e =>
    rw [hf] at h
    obtain ⟨j, n, t, d⟩ := e
    rcases n with - | n <;> rcases t with - | t <;> rcases d with - | d <;>
      first
        | exact Option.noConfusion h
        | (have hv := Option.some.inj h; subst hv; rfl)

/-- `dedupInsert` preserves an all-required accumulator when the inserted
field is required (true AND true). -/
theorem dedupInsert_required (acc : List RField) (f : RField)
    (hacc : ∀ g ∈ acc, g.required = true) (hf : f.required = true) :
    ∀ g ∈ dedupInsert acc f, g.required = true := by
  induction acc with
  | nil =>
    intro g hg
    rw [show dedupInsert [] f = [f] from rfl, List.mem_singleton] at hg
    subst hg
    exact hf
  | cons a t ih =>
    intro g hg
    simp only [dedupInsert] at hg
    by_cases hn : a.name = f.name
    · rw [if_pos hn] at hg
      rcases List.mem_cons.1 hg with rfl | hg'
      · show (mergeField a f).required = true
        simp [mergeField, hacc a (by simp), hf]
      · exact hacc g (by simp [hg'])
    · rw [if_neg hn] at hg
      rcases List.mem_cons.1 hg with rfl | hg'
      · exact hacc g (by simp)
      · exact ih (fun x hx => hacc x (by simp [hx])) g hg'

/-- The merge loop keeps every field required when all inputs are. -/
theorem dedupFields_required (fs : List RField)
    (h : ∀ f ∈ fs, f.required = true) :
    ∀ g ∈ dedupFields fs, g.required = true := by
  suffices H : ∀ (l : List RField) (acc : List RField),
      (∀ g ∈ acc, g.required = true) → (∀ f ∈ l, f.required = true) →
      ∀ g ∈ l.foldl dedupInsert acc, g.required = true by
    exact H fs [] (by intro g hg; cases hg) h
  intro l
  induction l with
  | nil => intro acc hacc _ g hg; exact hacc g hg
  | cons a t ih =>
    intro acc hacc hl g hg
    simp only [List.foldl_cons] at hg
    exact ih (dedupInsert acc a)
      (dedupInsert_required acc a hacc (hl a (by simp)))
      (fun x hx => hl x (by simp [hx])) g hg

/-- C10: every field extracted from a type-definition parameters block
is marked required = true, so an emitted type interface never contains
an optional ('?') property — only request shapes can have optional
fields. -/
theorem type_fields_never_optional (refs : List Reference) (rows : Nat)
    (entries : List (String × String)) (fields : List RField)
    (h : getTypeTable rows entries = some fields) :
    ∀ f ∈ dedupFields fields, f.required = true ∧
      renderField refs f =
        (if f.description ≠ "" then getDescription f.description else "") ++
        "  " ++ f.name ++ ": " ++ formatTypeList refs f.type ++ ";\n" := by
  have hall : ∀ f ∈ fields, f.required = true := by
    intro f hf
    simp only [getTypeTable] at h
    obtain ⟨a, -, hga⟩ := optMap_mem _ _ _ h f hf
    exact buildRow_required _ a f hga
  intro f hf
  have hreq := dedupFields_required fields hall f hf
  refine ⟨hreq, ?_⟩
  simp [renderField, hreq]

/-- Witness for C10 on the one-row table: the extracted field is
required and renders without a '?' marker. -/
theorem type_fields_never_optional_witness :
    getTypeTable 1 c10entries = some [c10field] ∧
    c10field.required = true ∧
    renderField [] c10field = "  /**\n   * d\n   */\n  id: string;\n" := by
  have H := type_fields_never_optional [] 1 c10entries [c10field] rfl c10field
    (by rw [show dedupFields [c10field] = [c10field] from rfl]
        exact List.mem_singleton_self _)
  exact ⟨rfl, H.1, by rw [H.2]; rfl⟩

/-- Counterexample to C3: the same two fetch tasks completing in the two
possible orders produce differently ordered (hence not byte-identical)
reference lists. -/
theorem extraction_idempotence_counterexample :
    Option.map (List.map Reference.id) (runAll [c3taskA, c3taskB]) = some ["a", "b"] ∧
    Option.map (List.map Reference.id) (runAll [c3taskB, c3taskA]) = some ["b", "a"] ∧
    runAll [c3taskA, c3taskB] ≠ runAll [c3taskB, c3taskA] := by
  refine ⟨rfl, rfl, ?_⟩
  intro h
  have h2 := congrArg (Option.map (List.map Reference.id)) h
  rw [show Option.map (List.map Reference.id) (runAll [c3taskA, c3taskB])
        = some ["a", "b"] from rfl] at h2
  rw [show Option.map (List.map Reference.id) (runAll [c3taskB, c3taskA])
        = some ["b", "a"] from rfl] at h2
  exact absurd h2 (by decide)

/-- C3 amended: extraction is deterministic up to the fetch-completion
order; two runs over permuted task orders produce permuted (same
content, possibly reordered) reference lists. -/
theorem extraction_deterministic_up_to_order (t1 t2 : List ExtractTask)
    (hp : t1.Perm t2) (refs1 : List Reference) (h1 : runAll t1 = some refs1) :
    ∃ refs2, runAll t2 = some refs2 ∧ refs1.Perm refs2 := by
  induction hp generalizing refs1 with
  | nil => exact ⟨refs1, h1, List.Perm.refl _⟩
  | @cons x l₁ l₂ hp ih =>
    simp only [runAll] at h1 ⊢
    cases hx : runTask x with
    | none => rw [hx] at h1; exact Option.noConfusion h1
    | some rx =>
      rw [hx] at h1
      cases hrest : runAll l₁ with
      | none => rw [hrest] at h1; exact Option.noConfusion h1
      | some r1 =>
        rw [hrest] at h1
        have hv := Option.some.inj h1
        subst hv
        obtain ⟨r2, hr2, hperm⟩ := ih r1 hrest
        rw [hr2]
        exact ⟨rx ++ r2, rfl, List.Perm.append_left rx hperm⟩
  | swap x y l =>
    simp only [runAll] at h1 ⊢
    cases hy : runTask y with
    | none => rw [hy] at h1; exact Option.noConfusion h1
    | some ry =>
      rw [hy] at h1
      cases hx : runTask x with
      | none => rw [hx] at h1; exact Option.noConfusion h1
      | some rx =>
        rw [hx] at h1
        cases hl : runAll l with
        | none => rw [hl] at h1; exact Option.noConfusion h1
        | some rl =>
          rw [hl] at h1
          have hv := Option.some.inj h1
          subst hv
          refine ⟨rx ++ (ry ++ rl), rfl, ?_⟩
          have hc : List.Perm ((ry ++ rx) ++ rl) ((rx ++ ry) ++ rl) :=
            (List.perm_append_comm).append_right rl
          simpa [List.append_assoc] using hc
  | trans hp1 hp2 ih1 ih2 =>
    obtain ⟨r2, h2, p12⟩ := ih1 refs1 h1
    obtain ⟨r3, h3, p23⟩ := ih2 r2 h2
    exact ⟨r3, h3, p12.trans p23⟩

/-- Witness for the amended C3 at the two concrete tasks: swapping the
completion order permutes the serialized list. -/
theorem extraction_deterministic_up_to_order_witness :
    runAll [c3taskB, c3taskA] = some [c3refB, c3refA] ∧
    ([c3refA, c3refB] : List Reference).Perm [c3refB, c3refA] := by
  obtain ⟨r2, h2, hp⟩ := extraction_deterministic_up_to_order
    [c3taskA, c3taskB] [c3taskB, c3taskA]
    (List.Perm.swap c3taskB c3taskA []) [c3refA, c3refB] rfl
  have hr : r2 = [c3refB, c3refA] := by
    rw [show runAll [c3taskB, c3taskA] = some [c3refB, c3refA] from rfl] at h2
    exact (Option.some.inj h2).symm
  subst hr
  exact ⟨h2, hp⟩

/-- `addType` contributes at most one Reference, whose id is the node's
slug. -/
theorem addType_ids (product slug titleClean excerpt : String) (pbs : List TableData)
    (refs : List Reference) (h : addType product slug titleClean excerpt pbs = some refs) :
    (refs.map Reference.id).Sublist [slug] := by
  cases pbs with
  | nil =>
    simp only [addType] at h
    have hv := Option.some.inj h
    subst hv
    simp
  | cons tb rest =>
    simp only [addType] at h
    cases hg : getTypeTable tb.rows tb.data with
    | none => rw [hg] at h; exact Option.noConfusion h
    | some fields =>
      rw [hg] at h
      have hv := Option.some.inj h
      subst hv
      simp

/-- `addRequest` tags the produced Reference with the node's slug. -/
theorem addRequest_id (product psl slug t e : String) (api : Option ApiInfo)
    (r : Reference) (h : addRequest product psl slug t e api = some r) : r.id = slug := by
  simp only [addRequest] at h
  cases api with
  | none => exact Option.noConfusion h
  | some a =>
    cases hb : requestBaseName t with
    | none => rw [hb] at h; exact Option.noConfusion h
    | some base =>
      rw [hb] at h
      have hv := Option.some.inj h
      subst hv
      rfl

/-- The ids extracted from a documentation subtree form a sublist of the
subtree's slugs (strong induction on the tree size). -/
theorem handle_ids_sublist : ∀ n : Nat,
    (∀ node : DocNode, nodeSize node ≤ n → ∀ product parent refs,
      handleReference product parent node = some refs →
      (refs.map Reference.id).Sublist (slugsNode node)) ∧
    (∀ cs : List DocNode, childrenSize cs ≤ n → ∀ product psl refs,
      handleChildren product psl cs = some refs →
      (refs.map Reference.id).Sublist (slugsList cs)) := by
  intro n
  induction n using Nat.strong_induction_on with
  | _ n ih =>
    constructor
    · intro node hsize product parent refs h
      obtain ⟨title, slug, ntype, body, excerpt, api, pbs, children⟩ := node
      have hsz : 1 + childrenSize children ≤ n := by
        have e : nodeSize (DocNode.mk title slug ntype body excerpt api pbs children)
            = 1 + childrenSize children := rfl
        omega
      simp only [handleReference, slugsNode] at h ⊢
      by_cases hb : ntype = "basic"
      · rw [if_pos hb] at h
        by_cases hseq : jsIncludes (cleanProductSuffix title) "Sequence" = true
        · rw [if_pos hseq] at h
          have hv := Option.some.inj h
          subst hv
          simp
        · rw [if_neg hseq] at h
          by_cases hobj : jsEndsWith (cleanProductSuffix title) "Object" = true
          · rw [if_pos hobj] at h
            cases hat : addType product slug (cleanProductSuffix title) excerpt pbs with
            | none => rw [hat] at h; exact Option.noConfusion h
            | some typeRefs =>
              rw [hat] at h
              cases hch : handleChildren product slug children with
              | none => rw [hch] at h; exact Option.noConfusion h
              | some childRefs =>
                rw [hch] at h
                have hv := Option.some.inj h
                subst hv
                rw [List.map_append]
                have h1 := addType_ids product slug (cleanProductSuffix title) excerpt pbs
                  typeRefs hat
                have h2 := (ih (n - 1) (by omega)).2 children (by omega) product slug
                  childRefs hch
                exact List.Sublist.append h1 h2
          · rw [if_neg hobj] at h
            by_cases herr : jsEndsWith (cleanProductSuffix title) "Errors" = true
            · rw [if_pos herr] at h
              cases parent with
              | none =>
                have hv := Option.some.inj h
                subst hv
                simp
              | some ps =>
                have hv := Option.some.inj h
                subst hv
                simp only [List.map_cons, List.map_nil]
                show List.Sublist [slug] (slug :: slugsList children)
                exact List.Sublist.cons₂ _ (List.nil_sublist _)
            · rw [if_neg herr] at h
              by_cases hweb : jsStartsWith (cleanProductSuffix title) "Webhook" = true
              · rw [if_pos hweb] at h
                have hv := Option.some.inj h
                subst hv
                simp
              · rw [if_neg hweb] at h
                have hv := Option.some.inj h
                subst hv
                simp
      · rw [if_neg hb] at h
        by_cases hep : ntype = "endpoint"
        · rw [if_pos hep] at h
          cases parent with
          | none =>
            have hv := Option.some.inj h
            subst hv
            simp
          | some ps =>
            have h' : (match addRequest product ps slug (cleanProductSuffix title) excerpt api with
                       | none => none
                       | some r => some [r]) = some refs := h
            cases har : addRequest product ps slug (cleanProductSuffix title) excerpt api with
            | none => rw [har] at h'; exact Option.noConfusion h'
            | some r =>
              rw [har] at h'
              have hv := Option.some.inj h'
              subst hv
              simp only [List.map_cons, List.map_nil]
              rw [addRequest_id product ps slug (cleanProductSuffix title) excerpt api r har]
              exact List.Sublist.cons₂ _ (List.nil_sublist _)
        · rw [if_neg hep] at h
          have hv := Option.some.inj h
          subst hv
          simp
    · intro cs hsize product psl refs h
      cases cs with
      | nil =>
        simp only [handleChildren] at h
        have hv := Option.some.inj h
        subst hv
        simp
      | cons c rest =>
        have e : childrenSize (c :: rest) = 1 + nodeSize c + childrenSize rest := rfl
        simp only [handleChildren] at h
        cases hc : handleReference product (some psl) c with
        | none => rw [hc] at h; exact Option.noConfusion h
        | some rs =>
          rw [hc] at h
          cases hr : handleChildren product psl rest with
          | none => rw [hr] at h; exact Option.noConfusion h
          | some rs2 =>
            rw [hr] at h
            have hv := Option.some.inj h
            subst hv
            have h1 := (ih (n - 1) (by omega)).1 c (by omega) product (some psl) rs hc
            have h2 := (ih (n - 1) (by omega)).2 rest (by omega) product psl rs2 hr
            simp only [slugsList, List.map_append]
            exact List.Sublist.append h1 h2

/-- Instance of the induction at one node. -/
theorem handleReference_ids (product : String) (parent : Option String)
    (node : DocNode) (refs : List Reference)
    (h : handleReference product parent node = some refs) :
    (refs.map Reference.id).Sublist (slugsNode node) :=
  (handle_ids_sublist (nodeSize node)).1 node (Nat.le_refl _) product parent refs h

/-- The ids of one fetch task's references form a sublist of its
documentation slugs. -/
theorem runTask_ids (product : String) :
    ∀ (docs : List DocNode) (refs : List Reference),
      runTask.go product docs = some refs →
      (refs.map Reference.id).Sublist (slugsList docs) := by
  intro docs
  induction docs with
  | nil =>
    intro refs h
    have hv := Option.some.inj h
    subst hv
    simp
  | cons d ds ih =>
    intro refs h
    simp only [runTask.go] at h
    cases hd : handleReference product none d with
    | none => rw [hd] at h; exact Option.noConfusion h
    | some rs =>
      rw [hd] at h
      cases hr : runTask.go product ds with
      | none => rw [hr] at h; exact Option.noConfusion h
      | some rest =>
        rw [hr] at h
        have hv := Option.some.inj h
        subst hv
        simp only [slugsList, List.map_append]
        exact List.Sublist.append (handleReference_ids product none d rs hd) (ih rest hr)

/-- The ids of a whole extraction run form a sublist of all processed
slugs. -/
theorem runAll_ids : ∀ (tasks : List ExtractTask) (refs : List Reference),
    runAll tasks = some refs →
    (refs.map Reference.id).Sublist (slugsTasks tasks) := by
  intro tasks
  induction tasks with
  | nil =>
    intro refs h
    have hv := Option.some.inj h
    subst hv
    simp
  | cons t ts ih =>
    intro refs h
    simp only [runAll] at h
    cases ht : runTask t with
    | none => rw [ht] at h; exact Option.noConfusion h
    | some rs =>
      rw [ht] at h
      cases hr : runAll ts with
      | none => rw [hr] at h; exact Option.noConfusion h
      | some rest =>
        rw [hr] at h
        have hv := Option.some.inj h
        subst hv
        simp only [slugsTasks, List.map_append]
        exact List.Sublist.append (runTask_ids t.product t.docs rs ht) (ih rest hr)

/-- Counterexample to C4: two documentation nodes sharing the slug
`customer` yield two Reference records with the same id. -/
theorem id_uniqueness_counterexample :
    runAll [c4task] = some [c4ref1, c4ref2] ∧
    c4ref1.id = c4ref2.id ∧
    ¬ (([c4ref1, c4ref2].map Reference.id).Nodup) := by
  refine ⟨rfl, rfl, ?_⟩
  decide

/-- C4 amended: when the slugs of all processed documentation nodes are
pairwise distinct, no two extracted References share an id. -/
theorem id_uniqueness_amended (tasks : List ExtractTask) (refs : List Reference)
    (h : runAll tasks = some refs) (hnd : (slugsTasks tasks).Nodup) :
    (refs.map Reference.id).Nodup :=
  List.Nodup.sublist (runAll_ids tasks refs h) hnd

/-- Witness for the amended C4 at two distinct-slug tasks. -/
theorem id_uniqueness_amended_witness :
    ([c3refA, c3refB].map Reference.id).Nodup :=
  id_uniqueness_amended [c3taskA, c3taskB] [c3refA, c3refB] rfl (by decide)
